import Mathlib

/-!
Shallow embedding of `apps/rpc_tester/rpc_tester.cc` (seastar RPC load tester)
and proofs about it.

Modelling conventions:
* The byte stream of the wire codec is a `List Nat`, each element one byte
  (values < 256 in well-formed streams).  `write_arithmetic_type` copies the
  raw in-memory representation of a fixed-width value; on the (assumed shared)
  native byte order we model this as a little-endian digit list of
  `sizeof(type)` bytes.  Reading from a truncated stream fails, modelled with
  `Option`.
* Machine integers are `Nat` (unsigned) and `Int` (signed) with explicit
  `% 2^w` / two's-complement conversions where the C++ code converts.
* A `double` is modelled by its 64-bit pattern (a `Nat < 2^64`): the codec
  only ever memcpy's the bytes, so bit-level identity is exactly what it
  preserves.
* The cooperative call loops of `job_rpc::run` are modelled as functions over
  an explicit schedule: each loop iteration is described by the steady-clock
  reading at the `do_until` condition check, the reading taken just before the
  call is issued, and the call's outcome (completion time, or failure).
  Since the loops only interact through commutative counter/sample updates,
  a job run is the list of its per-loop outcomes.
* Statistics are exact rationals (`ℚ`).  The boost.accumulators library is an
  external collaborator (not part of this repository's sources); its mean/max
  accumulators are modelled from the spec as a running count/sum/max.
-/

namespace RpcTester

/-- Little-endian byte list of `w` bytes for value `v`
(`write_arithmetic_type`: the raw in-memory representation of a `w`-byte
unsigned value). -/
def toLEBytes : Nat → Nat → List Nat
  | 0, _ => []
  | w + 1, v => v % 256 :: toLEBytes w (v / 256)

/-- Recombine a little-endian byte list into the unsigned value it represents
(`read_arithmetic_type` on an unsigned type). -/
def fromLEBytes : List Nat → Nat
  | [] => 0
  | b :: rest => b + 256 * fromLEBytes rest

/-- Consume exactly `w` bytes from the stream; fails (like `in.read` on a
truncated stream) when fewer are available. -/
def readBlock (w : Nat) (s : List Nat) : Option (List Nat × List Nat) :=
  if w ≤ s.length then some (s.take w, s.drop w) else none

/-- Two's-complement interpretation of a `bits`-wide unsigned value. -/
def toSigned (bits : Nat) (u : Nat) : Int :=
  if u < 2 ^ (bits - 1) then (u : Int) else (u : Int) - 2 ^ bits

/-- The `bits`-wide unsigned (two's-complement) representation of an integer. -/
def toUnsigned (bits : Nat) (i : Int) : Nat :=
  (i % (2 ^ bits : Int)).toNat

/-- Models `write(serializer, out, uint32_t v)`. -/
def writeU32 (v : Nat) : List Nat := toLEBytes 4 v

/-- Models `read(serializer, in, rpc::type<uint32_t>)`. -/
def readU32 (s : List Nat) : Option (Nat × List Nat) :=
  (readBlock 4 s).map (fun p => (fromLEBytes p.1, p.2))

/-- Models `write(serializer, out, uint64_t v)`. -/
def writeU64 (v : Nat) : List Nat := toLEBytes 8 v

/-- Models `read(serializer, in, rpc::type<uint64_t>)`. -/
def readU64 (s : List Nat) : Option (Nat × List Nat) :=
  (readBlock 8 s).map (fun p => (fromLEBytes p.1, p.2))

/-- Models `write(serializer, out, int32_t v)`: the raw two's-complement bytes. -/
def writeI32 (i : Int) : List Nat := toLEBytes 4 (toUnsigned 32 i)

/-- Models `read(serializer, in, rpc::type<int32_t>)`. -/
def readI32 (s : List Nat) : Option (Int × List Nat) :=
  (readBlock 4 s).map (fun p => (toSigned 32 (fromLEBytes p.1), p.2))

/-- Models `write(serializer, out, int64_t v)`: the raw two's-complement bytes. -/
def writeI64 (i : Int) : List Nat := toLEBytes 8 (toUnsigned 64 i)

/-- Models `read(serializer, in, rpc::type<int64_t>)`.  Note the source declares this
overload with return type `uint64_t`: the `int64_t` read from the stream is
converted to unsigned, so the caller receives the same 64 bits reinterpreted
as an unsigned value. -/
def readI64 (s : List Nat) : Option (Nat × List Nat) :=
  (readBlock 8 s).map (fun p => (fromLEBytes p.1, p.2))

/-- Models `write(serializer, out, double v)`, with the double given by its 64-bit
pattern. -/
def writeDoubleBits (bits : Nat) : List Nat := toLEBytes 8 bits

/-- Models `read(serializer, in, rpc::type<double>)`, returning the 64-bit pattern. -/
def readDoubleBits (s : List Nat) : Option (Nat × List Nat) :=
  (readBlock 8 s).map (fun p => (fromLEBytes p.1, p.2))

/-- Models `write(serializer, out, const sstring&)`: a 4-byte length prefix
(`uint32_t(v.size())`, i.e. the size reduced mod `2^32`) followed by the raw
bytes.  The string is modelled as its byte list. -/
def writeSstring (s : List Nat) : List Nat :=
  toLEBytes 4 (s.length % 2 ^ 32) ++ s

/-- Models `read(serializer, in, rpc::type<sstring>)`: read the 4-byte size, then
exactly that many bytes. -/
def readSstring (b : List Nat) : Option (List Nat × List Nat) :=
  (readBlock 4 b).bind (fun p => readBlock (fromLEBytes p.1) p.2)

theorem length_toLEBytes (w v : Nat) : (toLEBytes w v).length = w := by
  induction w generalizing v with
  | zero => rfl
  | succ w ih => simp [toLEBytes, ih]

theorem fromLEBytes_toLEBytes (w v : Nat) :
    fromLEBytes (toLEBytes w v) = v % 256 ^ w := by
  induction w generalizing v with
  | zero => simp [toLEBytes, fromLEBytes, Nat.mod_one]
  | succ w ih =>
    simp only [toLEBytes, fromLEBytes, ih]
    have h : (256 : Nat) ^ (w + 1) = 256 * 256 ^ w := by
      rw [Nat.pow_succ, Nat.mul_comm]
    rw [h, Nat.mod_mul]

theorem readBlock_append (xs rest : List Nat) (w : Nat) (h : xs.length = w) :
    readBlock w (xs ++ rest) = some (xs, rest) := by
  subst h
  simp [readBlock, List.take_left' rfl, List.drop_left' rfl]

theorem fromLEBytes_toLEBytes_of_lt (w v : Nat) (h : v < 256 ^ w) :
    fromLEBytes (toLEBytes w v) = v := by
  rw [fromLEBytes_toLEBytes, Nat.mod_eq_of_lt h]

theorem readBlock_exact (xs : List Nat) (w : Nat) (h : xs.length = w) :
    readBlock w xs = some (xs, []) := by
  have h2 := readBlock_append xs [] w h
  simpa using h2

theorem toSigned32_toUnsigned32 (i : Int) (hl : -(2 ^ 31) ≤ i) (hu : i < 2 ^ 31) :
    toSigned 32 (toUnsigned 32 i) = i := by
  simp only [toSigned, toUnsigned]
  norm_num
  split_ifs with h <;> omega

theorem toSigned64_toUnsigned64 (i : Int) (hl : -(2 ^ 63) ≤ i) (hu : i < 2 ^ 63) :
    toSigned 64 (toUnsigned 64 i) = i := by
  simp only [toSigned, toUnsigned]
  norm_num
  split_ifs with h <;> omega

theorem toUnsigned_lt (bits : Nat) (i : Int) : toUnsigned bits i < 2 ^ bits := by
  have hcast : ((2 ^ bits : Nat) : Int) = 2 ^ bits := by push_cast; ring
  have hpos : (0 : Int) < 2 ^ bits := by positivity
  have h := Int.emod_lt_of_pos i hpos
  have h0 := Int.emod_nonneg i (ne_of_gt hpos)
  simp only [toUnsigned]
  omega

theorem readBlock_toLEBytes (w v : Nat) :
    readBlock w (toLEBytes w v) = some (toLEBytes w v, []) :=
  readBlock_exact _ w (length_toLEBytes w v)

/-- C4: For every value of a fixed-width numeric type (unsigned and signed
32/64-bit integers, and `double`, the latter given by its 64-bit pattern
since the codec only copies raw bytes), decoding the bytes produced by
encoding the value returns a value bit-identical to the original.  For
`int64_t` the source's read overload is declared with return type `uint64_t`,
so the decoded value is the written 64-bit two's-complement pattern
reinterpreted as unsigned — bit-identical to the original, as witnessed by
`toSigned` recovering the signed value exactly. -/
theorem C4_numeric_roundtrip
    (u32 : Nat) (h32 : u32 < 2 ^ 32)
    (u64 : Nat) (h64 : u64 < 2 ^ 64)
    (i32 : Int) (h32l : -(2 ^ 31) ≤ i32) (h32u : i32 < 2 ^ 31)
    (i64 : Int) (h64l : -(2 ^ 63) ≤ i64) (h64u : i64 < 2 ^ 63)
    (dbl : Nat) (hdbl : dbl < 2 ^ 64) :
    readU32 (writeU32 u32) = some (u32, []) ∧
    readU64 (writeU64 u64) = some (u64, []) ∧
    readI32 (writeI32 i32) = some (i32, []) ∧
    readI64 (writeI64 i64) = some (toUnsigned 64 i64, []) ∧
    toSigned 64 (toUnsigned 64 i64) = i64 ∧
    readDoubleBits (writeDoubleBits dbl) = some (dbl, []) := by
  have e4 : (256 : Nat) ^ 4 = 2 ^ 32 := by norm_num
  have e8 : (256 : Nat) ^ 8 = 2 ^ 64 := by norm_num
  refine ⟨?_, ?_, ?_, ?_, ?_, ?_⟩
  · unfold readU32 writeU32
    rw [readBlock_toLEBytes]
    simp [fromLEBytes_toLEBytes_of_lt 4 u32 (by rw [e4]; exact h32)]
  · unfold readU64 writeU64
    rw [readBlock_toLEBytes]
    simp [fromLEBytes_toLEBytes_of_lt 8 u64 (by rw [e8]; exact h64)]
  · unfold readI32 writeI32
    rw [readBlock_toLEBytes]
    have hlt : toUnsigned 32 i32 < 256 ^ 4 := by rw [e4]; exact toUnsigned_lt 32 i32
    simp [fromLEBytes_toLEBytes_of_lt 4 _ hlt, toSigned32_toUnsigned32 i32 h32l h32u]
  · unfold readI64 writeI64
    rw [readBlock_toLEBytes]
    have hlt : toUnsigned 64 i64 < 256 ^ 8 := by rw [e8]; exact toUnsigned_lt 64 i64
    simp [fromLEBytes_toLEBytes_of_lt 8 _ hlt]
  · exact toSigned64_toUnsigned64 i64 h64l h64u
  · unfold readDoubleBits writeDoubleBits
    rw [readBlock_toLEBytes]
    simp [fromLEBytes_toLEBytes_of_lt 8 dbl (by rw [e8]; exact hdbl)]

theorem C4_numeric_roundtrip_witness :
    ((7 : Nat) < 2 ^ 32 ∧ (18446744073709551615 : Nat) < 2 ^ 64 ∧
      -(2 ^ 31) ≤ (-5 : Int) ∧ (-5 : Int) < 2 ^ 31 ∧
      -(2 ^ 63) ≤ (-1 : Int) ∧ (-1 : Int) < 2 ^ 63 ∧ (13 : Nat) < 2 ^ 64) ∧
    (readU32 (writeU32 7) = some (7, []) ∧
      readU64 (writeU64 18446744073709551615) = some (18446744073709551615, []) ∧
      readI32 (writeI32 (-5)) = some (-5, []) ∧
      readI64 (writeI64 (-1)) = some (toUnsigned 64 (-1), []) ∧
      toSigned 64 (toUnsigned 64 (-1)) = -1 ∧
      readDoubleBits (writeDoubleBits 13) = some (13, [])) :=
  ⟨⟨by norm_num, by norm_num, by norm_num, by norm_num, by norm_num, by norm_num,
      by norm_num⟩,
    C4_numeric_roundtrip 7 (by norm_num) 18446744073709551615 (by norm_num)
      (-5) (by norm_num) (by norm_num) (-1) (by norm_num) (by norm_num)
      13 (by norm_num)⟩

/-- C3 (amended: the guarantee holds for strings whose length is below
`2 ^ 32`; the 4-byte length prefix is `uint32_t(v.size())`, so a longer
string has its size reduced mod `2 ^ 32` and does not round-trip): encoding
a string with the wire codec and then decoding the produced bytes returns
the same string, and the decode consumes exactly `4 + length(s)` bytes. -/
theorem C3_sstring_roundtrip (s rest : List Nat) (h : s.length < 2 ^ 32) :
    readSstring (writeSstring s ++ rest) = some (s, rest) ∧
    (writeSstring s).length = 4 + s.length := by
  have hm : s.length % 2 ^ 32 = s.length := Nat.mod_eq_of_lt h
  constructor
  · unfold readSstring writeSstring
    rw [hm, List.append_assoc, readBlock_append _ _ 4 (length_toLEBytes 4 s.length)]
    have hlt : s.length < 256 ^ 4 := by omega
    rw [Option.some_bind]
    simp only [fromLEBytes_toLEBytes_of_lt 4 s.length hlt]
    exact readBlock_append s rest s.length rfl
  · unfold writeSstring
    simp [length_toLEBytes]

theorem C3_sstring_roundtrip_witness :
    ([7, 8] : List Nat).length < 2 ^ 32 ∧
    (readSstring (writeSstring [7, 8] ++ [9]) = some ([7, 8], [9]) ∧
      (writeSstring [7, 8]).length = 4 + ([7, 8] : List Nat).length) :=
  ⟨by norm_num, C3_sstring_roundtrip [7, 8] [9] (by norm_num)⟩

theorem readBlock_zero (s : List Nat) : readBlock 0 s = some ([], s) := by
  simp [readBlock]

/-- A string of length `2 ^ 32` whose every byte is 65. -/
def bigString : List Nat := List.replicate (2 ^ 32) 65

theorem bigString_length : bigString.length = 2 ^ 32 := by
  unfold bigString
  exact List.length_replicate _ _

/-- Counterexample to C3 as stated: for the string `bigString` of length
`2 ^ 32`, the 4-byte length prefix `uint32_t(v.size())` wraps to 0, so
decoding the encoding returns the empty string (not a string equal to
`bigString`) after consuming only 4 bytes (not `4 + length`). -/
theorem C3_counterexample :
    readSstring (writeSstring bigString) = some ([], bigString) ∧
    ([] : List Nat) ≠ bigString := by
  have hlen : bigString.length = 2 ^ 32 := bigString_length
  have hw : writeSstring bigString = toLEBytes 4 0 ++ bigString := by
    unfold writeSstring
    rw [hlen, Nat.mod_self]
  constructor
  · unfold readSstring
    rw [hw, readBlock_append _ _ 4 (length_toLEBytes 4 0)]
    rw [Option.some_bind]
    rw [fromLEBytes_toLEBytes_of_lt 4 0 (by norm_num)]
    exact readBlock_zero bigString
  · intro h
    have h2 := congrArg List.length h
    rw [hlen] at h2
    norm_num at h2

/-- One iteration of one concurrency slot's `do_until` call loop in
`job_rpc::run`.  `checkTime` is the steady-clock reading at the `do_until`
condition check, `startTime` the reading taken just before the call is
issued (`auto now = ...` after `_total_messages++`), and `callDone` the
reading when the call's response arrives (`none` models a failed call). -/
structure LoopIter where
  checkTime : Nat
  startTime : Nat
  callDone : Option Nat
deriving DecidableEq

/-- Outcome of one concurrency slot's loop: either the `do_until` condition
observed `now > _stop` at `exitTime` and the loop finished having contributed
`msgs` increments of `_total_messages` and the latency samples `lats`, or an
in-flight call failed (the loop's future fails with the call's error). -/
inductive LoopResult where
  | finished (exitTime msgs : Nat) (lats : List Nat)
  | failed (msgs : Nat) (lats : List Nat)
deriving DecidableEq

/-- The `do_until` loop body of `job_rpc::run` over an explicit iteration
schedule: stop as soon as the condition check observes `now > _stop`
(strictly later than the deadline); otherwise increment `_total_messages`,
issue the call, and on success record the elapsed microseconds and continue.
`none` means the schedule was exhausted before the loop terminated (the
theorems only speak about terminating runs). -/
def callLoop (stop msgs : Nat) (lats : List Nat) : List LoopIter → Option LoopResult
  | [] => none
  | it :: rest =>
    if stop < it.checkTime then some (LoopResult.finished it.checkTime msgs lats)
    else
      match it.callDone with
      | none => some (LoopResult.failed (msgs + 1) lats)
      | some d => callLoop stop (msgs + 1) (lats ++ [d - it.startTime]) rest

/-- Models `job_rpc::run`: `parallel_for_each` over `parallelism` independent call
loops, one schedule per loop, each starting from the shared zeroed state.
The loops only touch the shared counter/accumulator with commutative
updates, so the per-loop outcomes determine the shared totals. -/
def jobRun (stop : Nat) : List (List LoopIter) → Option (List LoopResult)
  | [] => some []
  | sc :: rest =>
    match callLoop stop 0 [] sc, jobRun stop rest with
    | some r, some rs => some (r :: rs)
    | _, _ => none

def resMsgs : LoopResult → Nat
  | LoopResult.finished _ m _ => m
  | LoopResult.failed m _ => m

def resLats : LoopResult → List Nat
  | LoopResult.finished _ _ l => l
  | LoopResult.failed _ l => l

def isFailedLoop : LoopResult → Bool
  | LoopResult.finished _ _ _ => false
  | LoopResult.failed _ _ => true

/-- Final value of the shared `_total_messages` counter. -/
def totalMsgs (rs : List LoopResult) : Nat := (rs.map resMsgs).sum

/-- Number of latency samples fed to the shared accumulator. -/
def totalSamples (rs : List LoopResult) : Nat :=
  (rs.map (fun r => (resLats r).length)).sum

def countFailed (rs : List LoopResult) : Nat := rs.countP isFailedLoop

theorem callLoop_msgs_le (stop : Nat) (sc : List LoopIter) :
    ∀ (m : Nat) (l : List Nat) (r : LoopResult),
      callLoop stop m l sc = some r → m ≤ resMsgs r := by
  induction sc with
  | nil => intro m l r h; simp [callLoop] at h
  | cons it rest ih =>
    intro m l r h
    simp only [callLoop] at h
    by_cases hc : stop < it.checkTime
    · rw [if_pos hc] at h
      cases h
      simp [resMsgs]
    · rw [if_neg hc] at h
      cases hd : it.callDone with
      | none =>
        rw [hd] at h
        cases h
        simp [resMsgs]
      | some d =>
        rw [hd] at h
        have h2 := ih (m + 1) (l ++ [d - it.startTime]) r h
        omega

theorem callLoop_first_check (stop : Nat) (it : LoopIter) (sc : List LoopIter)
    (m : Nat) (l : List Nat) (r : LoopResult) (hc : it.checkTime ≤ stop)
    (h : callLoop stop m l (it :: sc) = some r) : m + 1 ≤ resMsgs r := by
  simp only [callLoop] at h
  rw [if_neg (by omega)] at h
  cases hd : it.callDone with
  | none =>
    rw [hd] at h
    cases h
    simp [resMsgs]
  | some d =>
    rw [hd] at h
    exact callLoop_msgs_le stop sc (m + 1) _ r h

theorem callLoop_finished_exit (stop : Nat) (sc : List LoopIter) :
    ∀ (m : Nat) (l : List Nat) (t m2 : Nat) (l2 : List Nat),
      callLoop stop m l sc = some (LoopResult.finished t m2 l2) → stop < t := by
  induction sc with
  | nil => intro m l t m2 l2 h; simp [callLoop] at h
  | cons it rest ih =>
    intro m l t m2 l2 h
    simp only [callLoop] at h
    by_cases hc : stop < it.checkTime
    · rw [if_pos hc] at h
      cases h
      exact hc
    · rw [if_neg hc] at h
      cases hd : it.callDone with
      | none => rw [hd] at h; cases h
      | some d => rw [hd] at h; exact ih _ _ _ _ _ h

theorem callLoop_msgs_lats (stop : Nat) (sc : List LoopIter) :
    ∀ (m : Nat) (l : List Nat) (r : LoopResult),
      callLoop stop m l sc = some r →
      resMsgs r + l.length =
        (resLats r).length + m + (if isFailedLoop r then 1 else 0) := by
  induction sc with
  | nil => intro m l r h; simp [callLoop] at h
  | cons it rest ih =>
    intro m l r h
    simp only [callLoop] at h
    by_cases hc : stop < it.checkTime
    · rw [if_pos hc] at h
      cases h
      simp [resMsgs, resLats, isFailedLoop]
      omega
    · rw [if_neg hc] at h
      cases hd : it.callDone with
      | none =>
        rw [hd] at h
        cases h
        simp [resMsgs, resLats, isFailedLoop]
        omega
      | some d =>
        rw [hd] at h
        have h2 := ih (m + 1) (l ++ [d - it.startTime]) r h
        simp only [List.length_append, List.length_cons, List.length_nil] at h2
        omega

theorem jobRun_totals (stop : Nat) (scheds : List (List LoopIter)) :
    ∀ results : List LoopResult, jobRun stop scheds = some results →
      totalMsgs results = totalSamples results + countFailed results := by
  induction scheds with
  | nil =>
    intro results h
    simp only [jobRun] at h
    cases h
    simp [totalMsgs, totalSamples, countFailed]
  | cons sc rest ih =>
    intro results h
    simp only [jobRun] at h
    cases h1 : callLoop stop 0 [] sc with
    | none => rw [h1] at h; cases h
    | some r =>
      rw [h1] at h
      cases h2 : jobRun stop rest with
      | none => rw [h2] at h; cases h
      | some rs =>
        rw [h2] at h
        cases h
        have ha := callLoop_msgs_lats stop sc 0 [] r h1
        have hb := ih rs h2
        simp only [List.length_nil] at ha
        simp only [totalMsgs, totalSamples, countFailed, List.map_cons,
          List.sum_cons, List.countP_cons] at hb ⊢
        cases hf : isFailedLoop r <;> simp [hf] at ha ⊢ <;> omega

theorem jobRun_count (stop : Nat) (scheds : List (List LoopIter)) :
    ∀ results : List LoopResult, jobRun stop scheds = some results →
      (∀ sc ∈ scheds, ∀ it, sc.head? = some it → it.checkTime ≤ stop) →
      scheds.length ≤ totalMsgs results := by
  induction scheds with
  | nil => intro results h hstart; simp
  | cons sc rest ih =>
    intro results h hstart
    simp only [jobRun] at h
    cases h1 : callLoop stop 0 [] sc with
    | none => rw [h1] at h; cases h
    | some r =>
      rw [h1] at h
      cases h2 : jobRun stop rest with
      | none => rw [h2] at h; cases h
      | some rs =>
        rw [h2] at h
        cases h
        cases sc with
        | nil => simp [callLoop] at h1
        | cons it sc2 =>
          have hc : it.checkTime ≤ stop :=
            hstart (it :: sc2) (List.mem_cons_self _ _) it rfl
          have ha := callLoop_first_check stop it sc2 0 [] r hc h1
          have hb := ih rs h2 (fun s hs => hstart s (List.mem_cons_of_mem _ hs))
          simp only [totalMsgs, List.map_cons, List.sum_cons, List.length_cons] at hb ⊢
          omega

theorem jobRun_deadline (stop : Nat) (scheds : List (List LoopIter)) :
    ∀ results : List LoopResult, jobRun stop scheds = some results →
      ∀ r ∈ results, ∀ t m l, r = LoopResult.finished t m l → stop < t := by
  induction scheds with
  | nil =>
    intro results h
    simp only [jobRun] at h
    cases h
    intro r hr
    simp at hr
  | cons sc rest ih =>
    intro results h
    simp only [jobRun] at h
    cases h1 : callLoop stop 0 [] sc with
    | none => rw [h1] at h; cases h
    | some r =>
      rw [h1] at h
      cases h2 : jobRun stop rest with
      | none => rw [h2] at h; cases h
      | some rs =>
        rw [h2] at h
        cases h
        intro r2 hr2 t m l he
        rcases List.mem_cons.mp hr2 with heq | hmem
        · subst heq
          subst he
          exact callLoop_finished_exit stop sc 0 [] t m l h1
        · exact ih rs h2 r2 hmem t m l he

/-- C1 (amended: the guarantees hold provided each concurrency slot performs
its first deadline check no later than the deadline; `_stop` is fixed at
construction time as construction time + duration, so a loop whose first
check happens after the deadline performs zero calls).  For every job run
over `parallelism` loop schedules: the shared total call count is at least
the number of loops, and every loop that finished normally did so only after
its deadline check observed a clock reading strictly past the precomputed
deadline (so `run()` completes no earlier than the configured duration has
elapsed on the deadline clock). -/
theorem C1_run_deadline_and_call_count (stop : Nat) (scheds : List (List LoopIter))
    (results : List LoopResult) (hrun : jobRun stop scheds = some results)
    (hstart : ∀ sc ∈ scheds, ∀ it, sc.head? = some it → it.checkTime ≤ stop) :
    scheds.length ≤ totalMsgs results ∧
    ∀ r ∈ results, ∀ t m l, r = LoopResult.finished t m l → stop < t :=
  ⟨jobRun_count stop scheds results hrun hstart,
    jobRun_deadline stop scheds results hrun⟩

theorem C1_run_deadline_and_call_count_witness :
    (jobRun 10 [[⟨0, 0, some 2⟩, ⟨11, 11, some 12⟩]] =
        some [LoopResult.finished 11 1 [2]] ∧
      (∀ sc ∈ ([[⟨0, 0, some 2⟩, ⟨11, 11, some 12⟩]] : List (List LoopIter)),
        ∀ it, sc.head? = some it → it.checkTime ≤ 10)) ∧
    (([[⟨0, 0, some 2⟩, ⟨11, 11, some 12⟩]] : List (List LoopIter)).length ≤
        totalMsgs [LoopResult.finished 11 1 [2]] ∧
      ∀ r ∈ [LoopResult.finished 11 1 [2]], ∀ t m l,
        r = LoopResult.finished t m l → 10 < t) :=
  ⟨⟨by decide, by
      intro sc hsc it hit
      simp only [List.mem_singleton] at hsc
      subst hsc
      simp only [List.head?_cons, Option.some.injEq] at hit
      subst hit
      decide⟩,
    C1_run_deadline_and_call_count 10 [[⟨0, 0, some 2⟩, ⟨11, 11, some 12⟩]]
      [LoopResult.finished 11 1 [2]] (by decide)
      (by
        intro sc hsc it hit
        simp only [List.mem_singleton] at hsc
        subst hsc
        simp only [List.head?_cons, Option.some.injEq] at hit
        subst hit
        decide)⟩

/-- Counterexample to C1 as stated: a job with one loop (`concurrency = 1`)
whose run begins only after the precomputed deadline has passed (deadline 3,
first `do_until` check at clock 5 — possible since `_stop` is set at
construction time and `run()` is invoked later, e.g. after the HELLO
handshake, or with `--duration 0`).  The loop exits at its first condition
check without issuing any call, so the total call count is 0 < 1 = N. -/
theorem C1_counterexample :
    jobRun 3 [[⟨5, 5, some 6⟩]] = some [LoopResult.finished 5 0 []] ∧
    totalMsgs [LoopResult.finished 5 0 []] = 0 ∧
    ¬ ([[⟨5, 5, some 6⟩]] : List (List LoopIter)).length ≤
        totalMsgs [LoopResult.finished 5 0 []] := by
  refine ⟨by decide, by decide, by decide⟩

/-- C10: in every call-loop iteration `_total_messages++` precedes the call,
so over any completed `run()`: the total call count always equals the number
of recorded latency samples plus the number of loops aborted by a call
failure; in particular a fault-free run has count = samples, and a run
aborted by a call failure has counted the failed in-flight call(s) without a
corresponding sample. -/
theorem C10_counter_counts_failed_call (stop : Nat) (scheds : List (List LoopIter))
    (results : List LoopResult) (hrun : jobRun stop scheds = some results) :
    totalMsgs results = totalSamples results + countFailed results ∧
    (countFailed results = 0 → totalMsgs results = totalSamples results) ∧
    (0 < countFailed results → totalSamples results < totalMsgs results) := by
  have h := jobRun_totals stop scheds results hrun
  exact ⟨h, fun h0 => by omega, fun h1 => by omega⟩

theorem C10_counter_counts_failed_call_witness :
    (jobRun 10 [[⟨0, 0, none⟩], [⟨0, 1, some 4⟩, ⟨12, 12, some 13⟩]] =
        some [LoopResult.failed 1 [], LoopResult.finished 12 1 [3]]) ∧
    (totalMsgs [LoopResult.failed 1 [], LoopResult.finished 12 1 [3]] =
        totalSamples [LoopResult.failed 1 [], LoopResult.finished 12 1 [3]] +
          countFailed [LoopResult.failed 1 [], LoopResult.finished 12 1 [3]] ∧
      (countFailed [LoopResult.failed 1 [], LoopResult.finished 12 1 [3]] = 0 →
        totalMsgs [LoopResult.failed 1 [], LoopResult.finished 12 1 [3]] =
          totalSamples [LoopResult.failed 1 [], LoopResult.finished 12 1 [3]]) ∧
      (0 < countFailed [LoopResult.failed 1 [], LoopResult.finished 12 1 [3]] →
        totalSamples [LoopResult.failed 1 [], LoopResult.finished 12 1 [3]] <
          totalMsgs [LoopResult.failed 1 [], LoopResult.finished 12 1 [3]])) :=
  ⟨by decide,
    C10_counter_counts_failed_call 10
      [[⟨0, 0, none⟩], [⟨0, 1, some 4⟩, ⟨12, 12, some 13⟩]]
      [LoopResult.failed 1 [], LoopResult.finished 12 1 [3]] (by decide)⟩

/-- Modelled from the spec: the per-job statistics accumulator
(`boost::accumulators::accumulator_set` with `mean`, `max` and
extended-P²-quantile features) is an external library, not part of this
repository's sources.  Per the spec it maintains a running count and sum
(whose quotient is the arithmetic mean) and a running max, in O(1) state.
Values are exact rationals; `mx = none` models the empty accumulator. -/
structure AccState where
  cnt : Nat
  total : ℚ
  mx : Option ℚ
deriving DecidableEq

/-- A freshly constructed accumulator (no samples observed). -/
def accInit : AccState := ⟨0, 0, none⟩

/-- Models `_latencies(x)`: observe one sample. -/
def accObserve (st : AccState) (x : ℚ) : AccState :=
  ⟨st.cnt + 1, st.total + x,
    some (match st.mx with
      | none => x
      | some m => max m x)⟩

/-- Observe a whole sequence of samples in order. -/
def observeAll (l : List ℚ) : AccState := l.foldl accObserve accInit

/-- Models `mean(_latencies)`: the running arithmetic mean. -/
def accMean (st : AccState) : ℚ := st.total / (st.cnt : ℚ)

/-- Models `max(_latencies)` of a non-empty accumulator (`getD 0` is never reached
in the theorems, which always exhibit `mx = some _`). -/
def accMaxVal (st : AccState) : ℚ := st.mx.getD 0

/-- One entry of the `jobs` sequence of the YAML config (`struct job_config`;
the C++ field `type` is spelled `jtype` here because `type` is reserved). -/
structure JobConfig where
  name : String
  jtype : String
  verb : String
  parallelism : Nat
  shares : Nat
  duration : Nat
deriving DecidableEq

/-- The client-side state a constructed `job_rpc` owns: its config name, the
shared call counter, the latency accumulator, and the quantile-estimator
query `quantile(_latencies, quantile_probability = q)` (kept abstract as a
function, since the P²-quantile estimator is external library state). -/
structure JobModel where
  jname : String
  msgs : Nat
  acc : AccState
  qest : ℚ → ℚ

/-- Models `job_rpc::job_rpc`: store the config and install the echo call if the
verb is "echo"; any other verb throws `unknown verb` synchronously, before
any call is issued (the constructor performs no network operation — it only
stores a closure).  A fresh job has a zero counter and an empty accumulator;
the fresh estimator query is the constant-zero function (no samples). -/
def job_rpc_ctor (cfg : JobConfig) : Except String JobModel :=
  if cfg.verb = "echo" then
    Except.ok ⟨cfg.name, 0, accInit, fun _ => 0⟩
  else Except.error "unknown verb"

/-- Models `make_job`: dispatch on the job type; only "rpc" is recognized. -/
def make_job (cfg : JobConfig) : Except String JobModel :=
  if cfg.jtype = "rpc" then job_rpc_ctor cfg else Except.error "unknown job type"

/-- The construction loop of `context::context`: one job per configured
entry, in declaration order; the first construction error propagates and
aborts the whole context construction. -/
def make_jobs : List JobConfig → Except String (List JobModel)
  | [] => Except.ok []
  | cfg :: rest =>
    match make_job cfg, make_jobs rest with
    | Except.ok j, Except.ok js => Except.ok (j :: js)
    | Except.error e, _ => Except.error e
    | _, Except.error e => Except.error e

/-- The roles and jobs a `context` owns after construction. -/
structure Context where
  hasServer : Bool
  hasClient : Bool
  jobs : List JobModel

/-- Models `context::context`: a server is started iff a listen address was given;
iff a connect address was given, the outbound client is created and one job
is constructed per configured job (bound to that connection); with no
connect address no jobs are constructed. -/
def mkContext (laddr caddr : Option Unit) (cfgs : List JobConfig) :
    Except String Context :=
  match caddr with
  | none => Except.ok ⟨laddr.isSome, false, []⟩
  | some _ =>
    match make_jobs cfgs with
    | Except.ok js => Except.ok ⟨laddr.isSome, true, js⟩
    | Except.error e => Except.error e

/-- The externally visible teardown operations of `context::stop`. -/
inductive StopAction where
  | sendBye
  | stopClient
  | stopServer
deriving DecidableEq

/-- Models `context::stop`: if a client exists, send BYE and then — via `finally`,
i.e. also when sending BYE fails — stop the outbound connection, propagating
a BYE failure afterwards; otherwise, if a server exists, stop it; otherwise
do nothing.  Returns the actions performed and the resulting future. -/
def ctxStop (hasClient hasServer byeFails : Bool) :
    List StopAction × Except String Unit :=
  if hasClient then
    ([StopAction.sendBye, StopAction.stopClient],
      if byeFails then Except.error "bye failed" else Except.ok ())
  else if hasServer then ([StopAction.stopServer], Except.ok ())
  else ([], Except.ok ())

/-- Models `context::run` on a client context: `parallel_for_each` over the jobs'
call loops; after all loops settle it fails iff some loop's call failed. -/
def contextRunResult (results : List LoopResult) : Except String Unit :=
  if 0 < countFailed results then Except.error "call failed" else Except.ok ()

/-- The awaited stages of `main` after the contexts are constructed. -/
inductive MainStep where
  | runStep
  | emitStep
  | stopStep
deriving DecidableEq

/-- The `.get()`-style straight-line sequencing in `main`: each stage is awaited
in order, and a stage whose future failed rethrows, abandoning all later
stages (there is no try/finally around the run in `main`). -/
def execSteps : List (MainStep × Except String Unit) →
    List MainStep × Except String Unit
  | [] => ([], Except.ok ())
  | (e, Except.error msg) :: _ => ([e], Except.error msg)
  | (e, Except.ok ()) :: rest =>
    let p := execSteps rest
    (e :: p.1, p.2)

/-- Lines `ctx.invoke_on_all(&context::run).get(); ... ctx.stop().get();` of
`main`: run all jobs, emit the report, then stop the contexts. -/
def mainTail (runRes stopRes : Except String Unit) :
    List MainStep × Except String Unit :=
  execSteps [(MainStep.runStep, runRes), (MainStep.emitStep, Except.ok ()),
    (MainStep.stopStep, stopRes)]

/-- The ECHO handler registered in `context::context`:
`[] (uint64_t val) { return make_ready_future<uint64_t>(val); }`. -/
def echoHandler (val : Nat) : Nat := val

theorem foldl_accObserve_cnt (l : List ℚ) : ∀ st : AccState,
    (l.foldl accObserve st).cnt = st.cnt + l.length := by
  induction l with
  | nil => intro st; simp
  | cons x t ih =>
    intro st
    rw [List.foldl_cons, ih]
    simp only [accObserve, List.length_cons]
    omega

theorem foldl_accObserve_total (l : List ℚ) : ∀ st : AccState,
    (l.foldl accObserve st).total = st.total + l.sum := by
  induction l with
  | nil => intro st; simp
  | cons x t ih =>
    intro st
    rw [List.foldl_cons, ih]
    simp only [accObserve, List.sum_cons]
    ring

theorem foldl_accObserve_mx (l : List ℚ) : ∀ (st : AccState) (m : ℚ),
    st.mx = some m →
    ∃ m2, (l.foldl accObserve st).mx = some m2 ∧ m ≤ m2 ∧ (m2 = m ∨ m2 ∈ l) ∧
      ∀ x ∈ l, x ≤ m2 := by
  induction l with
  | nil =>
    intro st m hm
    exact ⟨m, by simpa using hm, le_refl m, Or.inl rfl, by simp⟩
  | cons x t ih =>
    intro st m hm
    have hm2 : (accObserve st x).mx = some (max m x) := by
      simp [accObserve, hm]
    obtain ⟨m2, h1, h2, h3, h4⟩ := ih (accObserve st x) (max m x) hm2
    refine ⟨m2, by simpa using h1, le_trans (le_max_left m x) h2, ?_, ?_⟩
    · rcases h3 with he | hmem
      · rcases max_choice m x with hmx | hmx
        · exact Or.inl (by rw [he, hmx])
        · exact Or.inr (by rw [he, hmx]; exact List.mem_cons_self x t)
      · exact Or.inr (List.mem_cons_of_mem x hmem)
    · intro y hy
      rcases List.mem_cons.mp hy with heq | hyt
      · rw [heq]; exact le_trans (le_max_right m x) h2
      · exact h4 y hyt

/-- C5: for every non-empty finite sequence of `observe()` calls on the
statistics accumulator, `max()` returns exactly the true maximum of the
observed values (an observed value that bounds all of them), and `mean()`
equals their arithmetic mean exactly — the model computes in exact rational
arithmetic, so it is within any floating-point rounding error. -/
theorem C5_accumulator_mean_max (l : List ℚ) (h : l ≠ []) :
    (∃ m, (observeAll l).mx = some m ∧ m ∈ l ∧ ∀ x ∈ l, x ≤ m) ∧
    accMean (observeAll l) = l.sum / (l.length : ℚ) := by
  obtain ⟨x, t, rfl⟩ := List.exists_cons_of_ne_nil h
  constructor
  · have hm : (accObserve accInit x).mx = some x := by simp [accObserve, accInit]
    obtain ⟨m2, h1, h2, h3, h4⟩ := foldl_accObserve_mx t (accObserve accInit x) x hm
    refine ⟨m2, ?_, ?_, ?_⟩
    · simpa [observeAll] using h1
    · rcases h3 with he | hmem
      · rw [he]; exact List.mem_cons_self x t
      · exact List.mem_cons_of_mem x hmem
    · intro y hy
      rcases List.mem_cons.mp hy with heq | hyt
      · rw [heq]; exact h2
      · exact h4 y hyt
  · have hc : (observeAll (x :: t)).cnt = t.length + 1 := by
      show ((x :: t).foldl accObserve accInit).cnt = t.length + 1
      rw [List.foldl_cons, foldl_accObserve_cnt]
      simp only [accObserve, accInit]
      omega
    have ht : (observeAll (x :: t)).total = x + t.sum := by
      show ((x :: t).foldl accObserve accInit).total = x + t.sum
      rw [List.foldl_cons, foldl_accObserve_total]
      simp only [accObserve, accInit]
      ring
    unfold accMean
    rw [hc, ht]
    simp

theorem C5_accumulator_mean_max_witness :
    ([(1 : ℚ), 3, 2] ≠ []) ∧
    ((∃ m, (observeAll [(1 : ℚ), 3, 2]).mx = some m ∧ m ∈ [(1 : ℚ), 3, 2] ∧
        ∀ x ∈ [(1 : ℚ), 3, 2], x ≤ m) ∧
      accMean (observeAll [(1 : ℚ), 3, 2]) =
        ([(1 : ℚ), 3, 2]).sum / (([(1 : ℚ), 3, 2] : List ℚ).length : ℚ)) :=
  ⟨by simp, C5_accumulator_mean_max [(1 : ℚ), 3, 2] (by simp)⟩

theorem make_jobs_error_of_mem (cfg : JobConfig) (cfgs : List JobConfig)
    (hmem : cfg ∈ cfgs) (e : String) (herr : make_job cfg = Except.error e) :
    ∃ e2, make_jobs cfgs = Except.error e2 := by
  induction cfgs with
  | nil => cases hmem
  | cons c rest ih =>
    rcases List.mem_cons.mp hmem with rfl | hmem2
    · exact ⟨e, by simp only [make_jobs, herr]⟩
    · obtain ⟨e2, h2⟩ := ih hmem2
      cases hc : make_job c with
      | error e3 => exact ⟨e3, by simp only [make_jobs, hc]⟩
      | ok j => exact ⟨e2, by simp only [make_jobs, hc, h2]⟩

/-- C6: a job whose verb is not "echo", or whose type is not "rpc", yields a
configuration error synchronously at construction time: `make_job` returns
the error (so no job — and hence no network call — ever exists), the
context's job-construction loop fails, and the whole context construction —
which precedes any `start()`/`run()` network activity — fails: the error is
fatal to the whole run, with no partial-job-skip recovery. -/
theorem C6_config_error_is_fatal (cfg : JobConfig) (cfgs : List JobConfig)
    (laddr : Option Unit) (hbad : cfg.verb ≠ "echo" ∨ cfg.jtype ≠ "rpc")
    (hmem : cfg ∈ cfgs) :
    (∃ e, make_job cfg = Except.error e) ∧
    (∃ e, make_jobs cfgs = Except.error e) ∧
    (∃ e, mkContext laddr (some ()) cfgs = Except.error e) := by
  have h1 : ∃ e, make_job cfg = Except.error e := by
    unfold make_job job_rpc_ctor
    by_cases ht : cfg.jtype = "rpc"
    · have hv : cfg.verb ≠ "echo" := by tauto
      rw [if_pos ht, if_neg hv]
      exact ⟨_, rfl⟩
    · rw [if_neg ht]
      exact ⟨_, rfl⟩
  obtain ⟨e, he⟩ := h1
  obtain ⟨e2, he2⟩ := make_jobs_error_of_mem cfg cfgs hmem e he
  exact ⟨⟨e, he⟩, ⟨e2, he2⟩, ⟨e2, by simp only [mkContext, he2]⟩⟩

theorem C6_config_error_is_fatal_witness :
    ((⟨"j1", "rpc", "ping", 1, 100, 30⟩ : JobConfig).verb ≠ "echo" ∨
      (⟨"j1", "rpc", "ping", 1, 100, 30⟩ : JobConfig).jtype ≠ "rpc") ∧
    (⟨"j1", "rpc", "ping", 1, 100, 30⟩ : JobConfig) ∈
      [(⟨"j1", "rpc", "ping", 1, 100, 30⟩ : JobConfig)] ∧
    ((∃ e, make_job ⟨"j1", "rpc", "ping", 1, 100, 30⟩ = Except.error e) ∧
      (∃ e, make_jobs [(⟨"j1", "rpc", "ping", 1, 100, 30⟩ : JobConfig)] =
        Except.error e) ∧
      (∃ e, mkContext none (some ())
        [(⟨"j1", "rpc", "ping", 1, 100, 30⟩ : JobConfig)] = Except.error e)) :=
  ⟨Or.inl (by decide), by simp,
    C6_config_error_is_fatal ⟨"j1", "rpc", "ping", 1, 100, 30⟩
      [⟨"j1", "rpc", "ping", 1, 100, 30⟩] none (Or.inl (by decide)) (by simp)⟩

/-- C7: the server-side ECHO handler returns every unsigned 64-bit payload
value unchanged. -/
theorem C7_echo_identity (val : Nat) (hval : val < 2 ^ 64) :
    echoHandler val = val := rfl

theorem C7_echo_identity_witness :
    18446744073709551615 < 2 ^ 64 ∧
    echoHandler 18446744073709551615 = 18446744073709551615 :=
  ⟨by norm_num, C7_echo_identity 18446744073709551615 (by norm_num)⟩

/-- C9: a context constructed with both a listen address and a connect
address acts as server and client; its `stop()` sends the farewell and stops
the outbound client connection (also when sending BYE fails, via `finally`)
and never stops the server/listener — the `if (_server)` branch is reachable
only when no client exists. -/
theorem C9_stop_client_never_server (cfgs : List JobConfig) (ctx : Context)
    (byeFails : Bool)
    (hctx : mkContext (some ()) (some ()) cfgs = Except.ok ctx) :
    ctx.hasServer = true ∧ ctx.hasClient = true ∧
    (ctxStop ctx.hasClient ctx.hasServer byeFails).1 =
      [StopAction.sendBye, StopAction.stopClient] ∧
    StopAction.stopServer ∉ (ctxStop ctx.hasClient ctx.hasServer byeFails).1 ∧
    (∀ hc hs bf : Bool,
      StopAction.stopServer ∈ (ctxStop hc hs bf).1 → hc = false) := by
  have hroles : ctx.hasServer = true ∧ ctx.hasClient = true := by
    simp only [mkContext] at hctx
    cases hj : make_jobs cfgs with
    | ok js =>
      rw [hj] at hctx
      cases hctx
      exact ⟨rfl, rfl⟩
    | error e =>
      rw [hj] at hctx
      cases hctx
  obtain ⟨hs, hc⟩ := hroles
  refine ⟨hs, hc, ?_, ?_, by decide⟩
  · rw [hc, hs]
    cases byeFails <;> rfl
  · rw [hc, hs]
    cases byeFails <;> decide

theorem C9_stop_client_never_server_witness :
    mkContext (some ()) (some ()) [] = Except.ok ⟨true, true, []⟩ ∧
    ((⟨true, true, []⟩ : Context).hasServer = true ∧
      (⟨true, true, []⟩ : Context).hasClient = true ∧
      (ctxStop (⟨true, true, []⟩ : Context).hasClient
          (⟨true, true, []⟩ : Context).hasServer false).1 =
        [StopAction.sendBye, StopAction.stopClient] ∧
      StopAction.stopServer ∉
        (ctxStop (⟨true, true, []⟩ : Context).hasClient
          (⟨true, true, []⟩ : Context).hasServer false).1 ∧
      (∀ hc hs bf : Bool,
        StopAction.stopServer ∈ (ctxStop hc hs bf).1 → hc = false)) :=
  ⟨rfl, C9_stop_client_never_server [] ⟨true, true, []⟩ false rfl⟩

/-- C2 (amended: a call failure inside the call loop is not swallowed — it
propagates through `run()` and out of `main` — but `main` awaits
`invoke_on_all(&context::run)` with a bare `.get()` with no try/finally, so
on the failure path the subsequent `ctx.stop()` line is never reached and
the stop() teardown is skipped; the teardown runs only on the success path.
Within `stop()` itself, closing the outbound connection is guaranteed via
`finally` even when sending the farewell fails). -/
theorem C2_error_propagation_skips_stop (stop : Nat)
    (scheds : List (List LoopIter)) (results : List LoopResult)
    (stopRes : Except String Unit)
    (hrun : jobRun stop scheds = some results)
    (hfail : 0 < countFailed results) :
    contextRunResult results = Except.error "call failed" ∧
    mainTail (contextRunResult results) stopRes =
      ([MainStep.runStep], Except.error "call failed") ∧
    MainStep.stopStep ∉ (mainTail (contextRunResult results) stopRes).1 ∧
    (mainTail (Except.ok ()) stopRes).1 =
      [MainStep.runStep, MainStep.emitStep, MainStep.stopStep] ∧
    (∀ hs bf : Bool, StopAction.stopClient ∈ (ctxStop true hs bf).1) := by
  have h1 : contextRunResult results = Except.error "call failed" := by
    unfold contextRunResult
    rw [if_pos hfail]
  refine ⟨h1, ?_, ?_, ?_, by decide⟩
  · rw [h1]
    rfl
  · rw [h1]
    show MainStep.stopStep ∉ [MainStep.runStep]
    decide
  · cases stopRes with
    | ok u => cases u; rfl
    | error e => rfl

theorem C2_error_propagation_skips_stop_witness :
    (jobRun 10 [[⟨0, 0, none⟩]] = some [LoopResult.failed 1 []] ∧
      0 < countFailed [LoopResult.failed 1 []]) ∧
    (contextRunResult [LoopResult.failed 1 []] = Except.error "call failed" ∧
      mainTail (contextRunResult [LoopResult.failed 1 []]) (Except.ok ()) =
        ([MainStep.runStep], Except.error "call failed") ∧
      MainStep.stopStep ∉
        (mainTail (contextRunResult [LoopResult.failed 1 []]) (Except.ok ())).1 ∧
      (mainTail (Except.ok ()) (Except.ok ())).1 =
        [MainStep.runStep, MainStep.emitStep, MainStep.stopStep] ∧
      (∀ hs bf : Bool, StopAction.stopClient ∈ (ctxStop true hs bf).1)) :=
  ⟨⟨rfl, by decide⟩,
    C2_error_propagation_skips_stop 10 [[⟨0, 0, none⟩]] [LoopResult.failed 1 []]
      (Except.ok ()) (by decide) (by decide)⟩

/-- Counterexample to C2 as stated: after a run in which a call failed (one
loop, whose single call fails), `main`'s failure path executes only the run
stage — the trace contains no `stopStep`, i.e. the context's `stop()`
teardown (farewell, connection close, listener stop) does not execute after
the fault, contrary to the claim that teardown still executes on the failure
path. -/
theorem C2_counterexample :
    contextRunResult [LoopResult.failed 1 []] = Except.error "call failed" ∧
    mainTail (contextRunResult [LoopResult.failed 1 []]) (Except.ok ()) =
      ([MainStep.runStep], Except.error "call failed") ∧
    ¬ MainStep.stopStep ∈
      (mainTail (contextRunResult [LoopResult.failed 1 []]) (Except.ok ())).1 := by
  refine ⟨rfl, rfl, by decide⟩

/-- The four target probabilities
(`static std::array<double, 4> quantiles = {0.5, 0.95, 0.99, 0.999}`). -/
def quantProbs : List ℚ := [1 / 2, 19 / 20, 99 / 100, 999 / 1000]

/-- Models `fmt::format("p{}", q)` on the four target probabilities. -/
def probLabel (q : ℚ) : String :=
  if q = 1 / 2 then "p0.5"
  else if q = 19 / 20 then "p0.95"
  else if q = 99 / 100 then "p0.99"
  else "p0.999"

/-- The C-style `(uint64_t)` cast applied to the non-negative latency
statistics: truncation toward zero. -/
def truncToNat (x : ℚ) : Nat := (Int.floor x).toNat

/-- One job's section of the report. -/
structure JobReport where
  messages : Nat
  average : Nat
  quants : List (String × Nat)
  maxLat : Nat
deriving DecidableEq

/-- Models `job_rpc::emit_result`: the message count, then the latency sub-block —
`average`, one `p<q>` field per target probability, then `max` — each cast
to `uint64_t` (microsecond values, truncated). -/
def emitJob (j : JobModel) : JobReport :=
  ⟨j.msgs, truncToNat (accMean j.acc),
    quantProbs.map (fun q => (probLabel q, truncToNat (j.qest q))),
    truncToNat (accMaxVal j.acc)⟩

/-- Models `context::emit_result`: one `name → report` section per owned job, in
declaration order. -/
def emitContext (jobs : List JobModel) : List (String × JobReport) :=
  jobs.map (fun j => (j.jname, emitJob j))

/-- The report loop of `main`: one map per execution unit
(`for i < smp::count`), keyed by the shard index, containing that shard's
per-job sections. -/
def emitReport (shards : List (List JobModel)) :
    List (Nat × List (String × JobReport)) :=
  shards.enum.map (fun p => (p.1, emitContext p.2))

theorem make_jobs_names (cfgs : List JobConfig) : ∀ js : List JobModel,
    make_jobs cfgs = Except.ok js →
    js.map JobModel.jname = cfgs.map JobConfig.name := by
  induction cfgs with
  | nil =>
    intro js h
    simp only [make_jobs] at h
    cases h
    rfl
  | cons c rest ih =>
    intro js h
    simp only [make_jobs] at h
    cases h1 : make_job c with
    | error e =>
      rw [h1] at h
      cases h2 : make_jobs rest with
      | ok js2 => rw [h2] at h; cases h
      | error e2 => rw [h2] at h; cases h
    | ok j =>
      rw [h1] at h
      cases h2 : make_jobs rest with
      | error e => rw [h2] at h; cases h
      | ok js2 =>
        rw [h2] at h
        cases h
        have hname : j.jname = c.name := by
          simp only [make_job, job_rpc_ctor] at h1
          by_cases ht : c.jtype = "rpc"
          · rw [if_pos ht] at h1
            by_cases hv : c.verb = "echo"
            · rw [if_pos hv] at h1
              cases h1
              rfl
            · rw [if_neg hv] at h1
              cases h1
          · rw [if_neg ht] at h1
            cases h1
        simp [List.map_cons, hname, ih js2 h2]

/-- C8: the emitted report carries one entry per execution unit, keyed by
the unit's index in order; each unit's entry has one section per owned job,
keyed by job name, in job-declaration order (construction preserves the
configured order); each job section carries the call count and a latency
sub-block with the average, one field per target probability labeled
`p<probability>`, and the max, each value a non-negative integer obtained
from the exact statistic by truncation toward zero — `truncToNat x ≤ x <
truncToNat x + 1`, so fractions are dropped, never rounded up. -/
theorem C8_report_structure (shards : List (List JobModel))
    (cfgs : List JobConfig) (js : List JobModel)
    (hjs : make_jobs cfgs = Except.ok js) :
    (emitReport shards).length = shards.length ∧
    (emitReport shards).map Prod.fst = List.range shards.length ∧
    (emitReport shards).map Prod.snd = shards.map emitContext ∧
    (∀ jobs : List JobModel,
      (emitContext jobs).map Prod.fst = jobs.map JobModel.jname) ∧
    js.map JobModel.jname = cfgs.map JobConfig.name ∧
    (∀ j : JobModel, emitJob j =
      ⟨j.msgs, truncToNat (accMean j.acc),
        [("p0.5", truncToNat (j.qest (1 / 2))),
         ("p0.95", truncToNat (j.qest (19 / 20))),
         ("p0.99", truncToNat (j.qest (99 / 100))),
         ("p0.999", truncToNat (j.qest (999 / 1000)))],
        truncToNat (accMaxVal j.acc)⟩) ∧
    (∀ x : ℚ, 0 ≤ x →
      (truncToNat x : ℚ) ≤ x ∧ x < (truncToNat x : ℚ) + 1) := by
  refine ⟨?_, ?_, ?_, ?_, make_jobs_names cfgs js hjs, ?_, ?_⟩
  · simp [emitReport]
  · rw [emitReport, List.map_map]
    have hcomp : (Prod.fst ∘ fun p : Nat × List JobModel =>
        (p.1, emitContext p.2)) = Prod.fst := rfl
    rw [hcomp, List.enum_map_fst]
  · rw [emitReport, List.map_map]
    have hcomp : (Prod.snd ∘ fun p : Nat × List JobModel =>
        (p.1, emitContext p.2)) = emitContext ∘ Prod.snd := rfl
    rw [hcomp, ← List.map_map, List.enum_map_snd]
  · intro jobs
    simp [emitContext]
  · intro j
    unfold emitJob quantProbs probLabel
    norm_num
  · intro x hx
    have h2 : (0 : ℤ) ≤ Int.floor x := Int.floor_nonneg.mpr hx
    have h3 : ((Int.floor x).toNat : ℤ) = Int.floor x := Int.toNat_of_nonneg h2
    have h4 : ((truncToNat x : Nat) : ℚ) = ((Int.floor x : ℤ) : ℚ) := by
      rw [truncToNat]
      exact_mod_cast h3
    constructor
    · rw [h4]
      exact Int.floor_le x
    · rw [h4]
      exact Int.lt_floor_add_one x

theorem C8_report_structure_witness :
    make_jobs [(⟨"echo1", "rpc", "echo", 4, 100, 30⟩ : JobConfig)] =
      Except.ok [(⟨"echo1", 0, accInit, fun _ => 0⟩ : JobModel)] ∧
    ((emitReport [[(⟨"echo1", 0, accInit, fun _ => 0⟩ : JobModel)]]).length =
        ([[(⟨"echo1", 0, accInit, fun _ => 0⟩ : JobModel)]] :
          List (List JobModel)).length ∧
      (emitReport [[(⟨"echo1", 0, accInit, fun _ => 0⟩ : JobModel)]]).map
          Prod.fst =
        List.range ([[(⟨"echo1", 0, accInit, fun _ => 0⟩ : JobModel)]] :
          List (List JobModel)).length ∧
      (emitReport [[(⟨"echo1", 0, accInit, fun _ => 0⟩ : JobModel)]]).map
          Prod.snd =
        ([[(⟨"echo1", 0, accInit, fun _ => 0⟩ : JobModel)]] :
          List (List JobModel)).map emitContext ∧
      (∀ jobs : List JobModel,
        (emitContext jobs).map Prod.fst = jobs.map JobModel.jname) ∧
      ([(⟨"echo1", 0, accInit, fun _ => 0⟩ : JobModel)]).map JobModel.jname =
        ([(⟨"echo1", "rpc", "echo", 4, 100, 30⟩ : JobConfig)]).map
          JobConfig.name ∧
      (∀ j : JobModel, emitJob j =
        ⟨j.msgs, truncToNat (accMean j.acc),
          [("p0.5", truncToNat (j.qest (1 / 2))),
           ("p0.95", truncToNat (j.qest (19 / 20))),
           ("p0.99", truncToNat (j.qest (99 / 100))),
           ("p0.999", truncToNat (j.qest (999 / 1000)))],
          truncToNat (accMaxVal j.acc)⟩) ∧
      (∀ x : ℚ, 0 ≤ x →
        (truncToNat x : ℚ) ≤ x ∧ x < (truncToNat x : ℚ) + 1)) :=
  ⟨rfl, C8_report_structure [[⟨"echo1", 0, accInit, fun _ => 0⟩]]
    [⟨"echo1", "rpc", "echo", 4, 100, 30⟩]
    [⟨"echo1", 0, accInit, fun _ => 0⟩] rfl⟩

end RpcTester
